import Mathlib

/-!
Shallow embedding of the primitive_db command interpreter and record engine
(`src/primitive_db/core.py`, `src/primitive_db/engine.py`, `src/decorators.py`),
together with theorems checking the natural-language specification against it.

Python dicts are modelled as association lists kept in insertion order;
functions that raise exceptions caught by the `handle_db_errors` decorator are
modelled with `Except String`; functions that signal failure by returning
`None` are modelled with `Option`.
-/

namespace PrimitiveDb

/-- Single-quote character, written via its code point. -/
def squote : Char := Char.ofNat 39

/-- Decidable equality for `Except`, so that the embedded fallible functions
can be evaluated inside concrete statements. -/
instance {α β : Type} [DecidableEq α] [DecidableEq β] : DecidableEq (Except α β)
  | Except.ok x, Except.ok y =>
    if h : x = y then isTrue (congrArg Except.ok h)
    else isFalse (fun hh => h (by injection hh))
  | Except.error x, Except.error y =>
    if h : x = y then isTrue (congrArg Except.error h)
    else isFalse (fun hh => h (by injection hh))
  | Except.ok _, Except.error _ => isFalse (fun hh => Except.noConfusion hh)
  | Except.error _, Except.ok _ => isFalse (fun hh => Except.noConfusion hh)

/-- Model of Python `str.strip()` on a character list: drop whitespace from
both ends. -/
def stripChars (cs : List Char) : List Char :=
  ((cs.dropWhile Char.isWhitespace).reverse.dropWhile Char.isWhitespace).reverse

/-- Model of Python `str.strip()`. -/
def pyStrip (s : String) : String := String.mk (stripChars s.data)

/-- Model of Python `str.lower()` on one character (ASCII). -/
def pyLowerChar (c : Char) : Char :=
  if 65 ≤ c.toNat ∧ c.toNat ≤ 90 then Char.ofNat (c.toNat + 32) else c

/-- Model of Python `str.lower()` (ASCII). -/
def pyLower (s : String) : String := String.mk (s.data.map pyLowerChar)

/-- Typed cell values: the closed set int / str / bool used by the database. -/
inductive Value where
  | vInt : Int → Value
  | vStr : String → Value
  | vBool : Bool → Value
deriving DecidableEq, Repr

/-- A row is a Python dict from column name to typed value, modelled as an
association list in insertion order. -/
abbrev Row := List (String × Value)

/-- Generic association-list lookup (Python `dict.get`). -/
def assocLookup {β : Type} : List (String × β) → String → Option β
  | [], _ => none
  | (k, v) :: rest, key => if k = key then some v else assocLookup rest key

/-- Generic association-list overwrite-or-append (Python `d[k] = v`):
overwrite an existing binding in place, else append a new binding at the end
(Python dicts keep insertion order). -/
def assocSet {β : Type} (l : List (String × β)) (key : String) (v : β) :
    List (String × β) :=
  if l.any (fun p => p.1 == key) then
    l.map (fun p => if p.1 = key then (key, v) else p)
  else l ++ [(key, v)]

/-- Model of `row.get(key)` on a row dict. -/
def rowGet (row : Row) (key : String) : Option Value :=
  assocLookup row key

/-- Model of `row[key] = v` on a row dict. -/
def rowSet (row : Row) (key : String) (v : Value) : Row :=
  assocSet row key v

/-- A column definition `{"name": ..., "type": ...}` of a stored schema. -/
structure Column where
  name : String
  type : String
deriving DecidableEq, Repr

/-- Metadata `tables` section: table name ↦ schema (ordered column list). -/
abbrev Metadata := List (String × List Column)

/-- Digits of a decimal literal folded to a natural number; `none` unless the
character list is non-empty and all decimal digits. -/
def parseDigits (cs : List Char) : Option Nat :=
  if cs ≠ [] ∧ cs.all (fun c => c.isDigit) then
    some (cs.foldl (fun a c => a * 10 + (c.toNat - 48)) 0)
  else none

/-- Modelled from Python's built-in `int(str)`: surrounding whitespace is
stripped, then an optional leading sign precedes a non-empty run of decimal
digits. (Digit-group underscores of Python numeric strings are not
modelled.) -/
def pyInt (s : String) : Option Int :=
  match stripChars s.data with
  | '+' :: ds => (parseDigits ds).map (fun n => (n : Int))
  | '-' :: ds => (parseDigits ds).map (fun n => -(n : Int))
  | ds => (parseDigits ds).map (fun n => (n : Int))

/-- Boolean row-predicate match used by select / update / delete:
`row.get(key) == value` in Python, where the right side is a typed value, so
a missing key (`None`) never matches. -/
def row_matches (row : Row) (key : String) (v : Value) : Bool :=
  decide (rowGet row key = some v)

namespace Core

/-- Supported column types (`core.SUPPORTED_TYPES`). -/
def SUPPORTED_TYPES : List String := ["int", "str", "bool"]

/-- Embedding of `core._convert_value`: coerce a raw token to the declared
type, failing with `ValueError` (modelled as `Except.error`). -/
def convert_value (raw : String) (expected_type : String) : Except String Value :=
  if expected_type = "str" then
    if 2 ≤ raw.data.length ∧ raw.data.head? = raw.data.getLast?
        ∧ (raw.data.head? = some '"' ∨ raw.data.head? = some squote)
    then Except.ok (Value.vStr (String.mk (raw.data.drop 1).dropLast))
    else Except.error "string value must be quoted"
  else if expected_type = "int" then
    match pyInt raw with
    | some n => Except.ok (Value.vInt n)
    | none => Except.error "expected an integer"
  else if expected_type = "bool" then
    if pyLower raw = "true" ∨ pyLower raw = "false" then
      Except.ok (Value.vBool (pyLower raw == "true"))
    else Except.error "expected boolean true or false"
  else Except.error "unsupported type"

/-- Embedding of `core._get_table_schema`: look the table up in the metadata
`tables` section; a missing table raises `KeyError` (modelled as an error). -/
def get_table_schema (md : Metadata) (tn : String) : Except String (List Column) :=
  match assocLookup md tn with
  | some schema => Except.ok schema
  | none => Except.error "table not found"

/-- Column-spec parsing loop of `core.create_table`: each spec must be
`name:type`, split on the first colon (`split(":", 1)`), with non-empty
trimmed name and type and a supported type; the first malformed spec
aborts. -/
def parse_columns : List String → Except String (List Column)
  | [] => Except.ok []
  | raw :: rest =>
    if ¬ raw.data.contains ':' then Except.error "malformed column spec"
    else
      let name := pyStrip (String.mk (raw.data.takeWhile (fun c => c ≠ ':')))
      let ty := pyStrip (String.mk ((raw.data.dropWhile (fun c => c ≠ ':')).drop 1))
      if name = "" ∨ ty = "" then Except.error "malformed column spec"
      else if ¬ SUPPORTED_TYPES.contains ty then Except.error "unsupported column type"
      else
        match parse_columns rest with
        | Except.error e => Except.error e
        | Except.ok cols => Except.ok (⟨name, ty⟩ :: cols)

/-- ID-handling step of `core.create_table`: prepend `ID:int` when no `ID`
spec is present; otherwise every `ID` spec must have type `int`, and all `ID`
columns are moved (stably) in front of the remaining columns. -/
def arrange_columns (parsed : List Column) : Except String (List Column) :=
  if parsed.any (fun c => c.name == "ID") then
    if parsed.any (fun c => c.name == "ID" && c.type != "int") then
      Except.error "ID must have type int"
    else
      Except.ok (parsed.filter (fun c => c.name == "ID")
        ++ parsed.filter (fun c => c.name != "ID"))
  else
    Except.ok (⟨"ID", "int"⟩ :: parsed)

/-- Embedding of `core.create_table` acting on the metadata `tables`
section. -/
def create_table (md : Metadata) (tn : String) (columns : List String) :
    Except String Metadata :=
  if md.any (fun p => p.1 == tn) then Except.error "table already exists"
  else
    match parse_columns columns with
    | Except.error e => Except.error e
    | Except.ok parsed =>
      match arrange_columns parsed with
      | Except.error e => Except.error e
      | Except.ok schema => Except.ok (md ++ [(tn, schema)])

/-- Embedding of `core.drop_table` (post-confirmation body): remove the table
or fail with `KeyError`. -/
def drop_table (md : Metadata) (tn : String) : Except String Metadata :=
  if md.any (fun p => p.1 == tn) then
    Except.ok (md.filter (fun p => p.1 != tn))
  else Except.error "table not found"

/-- Record-building loop of `core.insert`: convert each raw value against its
column type and assign it into the record dict; the first conversion failure
aborts the whole insert. -/
def build_record : List Column → List String → Row → Except String Row
  | [], [], acc => Except.ok acc
  | col :: cols, v :: vs, acc =>
    match convert_value v col.type with
    | Except.error e => Except.error e
    | Except.ok tv => build_record cols vs (rowSet acc col.name tv)
  | _, _, _ => Except.error "arity mismatch"

/-- Integer `ID` fields currently present in the row list; rows whose `ID`
is missing or non-integer are ignored, matching the `isinstance` filter in
`core.insert`. -/
def existing_ids (td : List Row) : List Int :=
  td.filterMap (fun row =>
    match rowGet row "ID" with
    | some (Value.vInt n) => some n
    | _ => none)

/-- Embedding of `core.insert`: arity check against the non-ID columns,
value conversion, ID generation by `max + 1` (1 when no integer ID exists),
and append of the single new record. -/
def insert (md : Metadata) (tn : String) (td : List Row) (values : List String) :
    Except String (List Row × Int) :=
  match get_table_schema md tn with
  | Except.error e => Except.error e
  | Except.ok schema =>
    let user_columns := schema.filter (fun c => c.name != "ID")
    if values.length ≠ user_columns.length then
      Except.error "value count does not match schema"
    else
      match build_record user_columns values [] with
      | Except.error e => Except.error e
      | Except.ok record =>
        let new_id : Int :=
          match existing_ids td with
          | [] => 1
          | x :: xs => xs.foldl max x + 1
        Except.ok (td ++ [rowSet record "ID" (Value.vInt new_id)], new_id)

/-- Embedding of `core.select`: all rows without a predicate, else the rows
whose `key` field equals the typed value. -/
def select (td : List Row) (where_clause : Option (String × Value)) : List Row :=
  match where_clause with
  | none => td
  | some (k, v) => td.filter (fun row => row_matches row k v)

/-- Row-update loop of `core.update`: a matching row has every `set_clause`
binding assigned into it, and its (post-assignment) integer `ID` is
collected; non-integer or missing `ID` skips collection only. -/
def update_go (set_clause : List (String × Value)) (wk : String) (wv : Value) :
    List Row → List Row × List Int
  | [] => ([], [])
  | row :: rest =>
    let p := update_go set_clause wk wv rest
    if row_matches row wk wv then
      let row2 := set_clause.foldl (fun r kv => rowSet r kv.1 kv.2) row
      match rowGet row2 "ID" with
      | some (Value.vInt n) => (row2 :: p.1, n :: p.2)
      | _ => (row2 :: p.1, p.2)
    else (row :: p.1, p.2)

/-- Embedding of `core.update`; the engine always passes singleton clause
dicts, and `where_clause` here is the single entry the source extracts with
`next(iter(...))`. -/
def update (td : List Row) (set_clause : List (String × Value))
    (where_clause : String × Value) : List Row × List Int :=
  update_go set_clause where_clause.1 where_clause.2 td

/-- Row-partitioning loop of `core.delete`: matching rows are removed and, if
they carry an integer `ID`, that `ID` is collected. -/
def delete_go (wk : String) (wv : Value) : List Row → List Row × List Int
  | [] => ([], [])
  | row :: rest =>
    let p := delete_go wk wv rest
    if row_matches row wk wv then
      match rowGet row "ID" with
      | some (Value.vInt n) => (p.1, n :: p.2)
      | _ => (p.1, p.2)
    else (row :: p.1, p.2)

/-- Embedding of `core.delete` (post-confirmation body). -/
def delete (td : List Row) (where_clause : String × Value) : List Row × List Int :=
  delete_go where_clause.1 where_clause.2 td

end Core

namespace Engine

/-- Embedding of `engine._convert_value`: the same coercion as
`core._convert_value`, but signalling failure by `none` instead of
raising. -/
def convert_value (raw : String) (expected_type : String) : Option Value :=
  if expected_type = "str" then
    if 2 ≤ raw.data.length ∧ raw.data.head? = raw.data.getLast?
        ∧ (raw.data.head? = some '"' ∨ raw.data.head? = some squote)
    then some (Value.vStr (String.mk (raw.data.drop 1).dropLast))
    else none
  else if expected_type = "int" then
    match pyInt raw with
    | some n => some (Value.vInt n)
    | none => none
  else if expected_type = "bool" then
    if pyLower raw = "true" ∨ pyLower raw = "false" then
      some (Value.vBool (pyLower raw == "true"))
    else none
  else none

/-- Embedding of `engine._get_schema`: table lookup returning `none` when the
table is absent. -/
def get_schema (md : Metadata) (tn : String) : Option (List Column) :=
  assocLookup md tn

/-- Embedding of `engine._get_col_type`: type of the first column carrying
the name, if any. -/
def get_col_type : List Column → String → Option String
  | [], _ => none
  | c :: rest, col => if c.name = col then some c.type else get_col_type rest col

/-- Quote-flag transition of `engine._parse_values_list`: an opening quote
records its character; only the same character closes it. -/
def quote_toggle (inq : Option Char) (ch : Char) : Option Char :=
  match inq with
  | none => some ch
  | some q => if q = ch then none else some q

/-- Character loop of `engine._parse_values_list`: `acc` are the finished
tokens, `buf` the pending one; a comma outside quotes finishes a token, which
must be non-empty after trimming, as must the final token. -/
def pvl_loop : List Char → List String → List Char → Option Char → Option (List String)
  | [], acc, buf, _ =>
    let token := String.mk (stripChars buf)
    if token = "" then none else some (acc ++ [token])
  | ch :: rest, acc, buf, inq =>
    if ch = '"' ∨ ch = squote then
      pvl_loop rest acc (buf ++ [ch]) (quote_toggle inq ch)
    else if ch = ',' ∧ inq = none then
      let token := String.mk (stripChars buf)
      if token = "" then none else pvl_loop rest (acc ++ [token]) [] none
    else
      pvl_loop rest acc (buf ++ [ch]) inq

/-- Embedding of `engine._parse_values_list`: the trimmed input must be
parenthesized; an empty trimmed interior yields `[]`; otherwise the interior
is split by `pvl_loop`. -/
def parse_values_list (values_part : String) : Option (List String) :=
  let s := stripChars values_part.data
  if s.head? = some '(' ∧ s.getLast? = some ')' then
    let inner := stripChars (s.drop 1).dropLast
    if inner = [] then some []
    else pvl_loop inner [] [] none
  else none

/-- Model of Python `tok.split("=", 1)`: the parts before and after the first
equals sign. -/
def py_split_eq (tok : String) : String × String :=
  (String.mk (tok.data.takeWhile (fun c => c ≠ '=')),
   String.mk ((tok.data.dropWhile (fun c => c ≠ '=')).drop 1))

/-- Embedding of `engine._parse_assignment`: a single token containing an
equals sign is split on its first one; otherwise three or more tokens whose
second is `=` use the first and third; both sides must trim non-empty. -/
def parse_assignment (tokens : List String) : Option (String × String) :=
  if tokens.length = 1 ∧ (tokens.getD 0 "").data.contains '=' then
    let l := pyStrip (py_split_eq (tokens.getD 0 "")).1
    let r := pyStrip (py_split_eq (tokens.getD 0 "")).2
    if l = "" ∨ r = "" then none else some (l, r)
  else if 3 ≤ tokens.length ∧ tokens.getD 1 "" = "=" then
    let l := pyStrip (tokens.getD 0 "")
    let r := pyStrip (tokens.getD 2 "")
    if l = "" ∨ r = "" then none else some (l, r)
  else none

/-- Query cache of `decorators.create_cacher`: key ↦ memoized select
result. A fresh cache (`create_cacher()`) is the empty list. -/
abbrev Cache := List (String × List Row)

/-- Embedding of the closure `cache_result` returned by
`decorators.create_cacher`: return the stored value of a present key without
invoking the compute function, else compute, store, and return. -/
def cache_result (cache : Cache) (key : String) (f : Unit → List Row) :
    List Row × Cache :=
  match assocLookup cache key with
  | some v => (v, cache)
  | none =>
    let v := f ()
    (v, cache ++ [(key, v)])

/-- Simplified model of Python `repr` on typed values, used only inside cache
keys (`f"...{typed_val!r}"`); string escaping and quote choice are not
modelled. -/
def py_repr : Value → String
  | Value.vInt n => toString n
  | Value.vStr s => String.mk [squote] ++ s ++ String.mk [squote]
  | Value.vBool b => if b then "True" else "False"

/-- Cache keys built in `engine.run` for the two select shapes. -/
def select_key (tn : String) (w : Option (String × Value)) : String :=
  match w with
  | none => "select:" ++ tn ++ ":all"
  | some (col, v) => "select:" ++ tn ++ ":" ++ col ++ "=" ++ py_repr v

/-- Session state of `engine.run`: the persisted metadata, the per-table row
files (`load_table_data` of a missing table yields `[]`), and the select
cache closure. -/
structure Session where
  metadata : Metadata
  store : List (String × List Row)
  cache : Cache
deriving Repr

/-- Model of `utils.load_table_data`: a missing table file is an empty row
list. -/
def load_rows (s : Session) (tn : String) : List Row :=
  (assocLookup s.store tn).getD []

/-- The select branch of `engine.run`, after command parsing: check the table
exists, and for a where-select resolve the column type and coerce the raw
value, before serving the result through the cache. Returns the printed rows
(`none` on the error paths) and the next session state. -/
def step_select (s : Session) (tn : String) (w : Option (String × String)) :
    Option (List Row) × Session :=
  match get_schema s.metadata tn with
  | none => (none, s)
  | some schema =>
    let td := load_rows s tn
    match w with
    | none =>
      let p := cache_result s.cache (select_key tn none) (fun _ => Core.select td none)
      (some p.1, { s with cache := p.2 })
    | some (col, raw) =>
      match get_col_type schema col with
      | none => (none, s)
      | some ty =>
        match convert_value raw ty with
        | none => (none, s)
        | some tv =>
          let p := cache_result s.cache (select_key tn (some (col, tv)))
            (fun _ => Core.select td (some (col, tv)))
          (some p.1, { s with cache := p.2 })

/-- The insert branch of `engine.run`, after values parsing: on success the
new row list is saved and the cache is replaced by a fresh empty one; on any
failure the session is unchanged. -/
def step_insert (s : Session) (tn : String) (values : List String) : Session :=
  match get_schema s.metadata tn with
  | none => s
  | some _ =>
    let td := load_rows s tn
    match Core.insert s.metadata tn td values with
    | Except.error _ => s
    | Except.ok (newData, _) =>
      { metadata := s.metadata, store := assocSet s.store tn newData, cache := [] }

/-- The update branch of `engine.run`, after parsing and value coercion: an
empty matched-ID list aborts before saving and before the cache reset. -/
def step_update (s : Session) (tn : String) (set_clause where_clause : String × Value) :
    Session :=
  match get_schema s.metadata tn with
  | none => s
  | some _ =>
    let td := load_rows s tn
    let p := Core.update td [set_clause] where_clause
    if p.2 = [] then s
    else { metadata := s.metadata, store := assocSet s.store tn p.1, cache := [] }

/-- The delete branch of `engine.run`: the `confirm_action` decorator asks
first (declining leaves everything untouched); an empty matched-ID list also
aborts before saving and before the cache reset. -/
def step_delete (s : Session) (tn : String) (where_clause : String × Value)
    (confirmed : Bool) : Session :=
  match get_schema s.metadata tn with
  | none => s
  | some _ =>
    if ¬ confirmed then s
    else
      let td := load_rows s tn
      let p := Core.delete td where_clause
      if p.2 = [] then s
      else { metadata := s.metadata, store := assocSet s.store tn p.1, cache := [] }

/-- The create_table branch of `engine.run`: on success only the metadata is
saved; the cache is left as it is. -/
def step_create (s : Session) (tn : String) (columns : List String) : Session :=
  match Core.create_table s.metadata tn columns with
  | Except.error _ => s
  | Except.ok md2 => { s with metadata := md2 }

/-- The drop_table branch of `engine.run`: the confirmation comes first; on
success only the metadata is saved; the cache is left as it is. -/
def step_drop (s : Session) (tn : String) (confirmed : Bool) : Session :=
  if ¬ confirmed then s
  else
    match Core.drop_table s.metadata tn with
    | Except.error _ => s
    | Except.ok md2 => { s with metadata := md2 }

end Engine

/-!
Specification-side definitions. `split_outside` and `parse_values_list_spec`
are written from the (amended) specification wording of the value-list
parser — the interior is split on exactly the commas occurring outside
quotes, every token is trimmed and must be non-empty — to be compared with
the embedded `Engine.parse_values_list`.
-/

/-- Splitter following the specification: split a character list on the
commas occurring outside quotes, returning the first token and the remaining
tokens. A quote character toggles the in-quote flag, closed only by the same
character. -/
def split_outside : List Char → Option Char → List Char × List (List Char)
  | [], _ => ([], [])
  | ch :: rest, inq =>
    if ch = '"' ∨ ch = squote then
      let p := split_outside rest (Engine.quote_toggle inq ch)
      (ch :: p.1, p.2)
    else if ch = ',' ∧ inq = none then
      let p := split_outside rest none
      ([], p.1 :: p.2)
    else
      let p := split_outside rest inq
      (ch :: p.1, p.2)

/-- Token list the specification prescribes for a non-empty interior: the
comma-split pieces, each trimmed. -/
def values_tokens_spec (inner : List Char) : List String :=
  String.mk (stripChars (split_outside inner none).1)
    :: (split_outside inner none).2.map (fun l => String.mk (stripChars l))

/-- Value-list parser written from the amended specification: the trimmed
input must be wrapped in parentheses; an empty trimmed interior yields `[]`;
otherwise the tokens are the comma-split (outside quotes) pieces of the
trimmed interior, each trimmed, and the parse fails exactly when some token
is empty. Unbalanced quoting is not by itself a failure. -/
def parse_values_list_spec (values_part : String) : Option (List String) :=
  let s := stripChars values_part.data
  if s.head? = some '(' ∧ s.getLast? = some ')' then
    let inner := stripChars (s.drop 1).dropLast
    if inner = [] then some []
    else
      let toks := values_tokens_spec inner
      if toks.any (fun t => t == "") then none else some toks
  else none

/-!
Helper lemmas about the association-list model of Python dicts, the cache,
and folded maxima.
-/

theorem assocLookup_eq_none {β : Type} (l : List (String × β)) (k : String)
    (h : l.any (fun p => p.1 == k) = false) : assocLookup l k = none := by
  induction l with
  | nil => rfl
  | cons p rest ih =>
    obtain ⟨pk, pv⟩ := p
    simp only [List.any_cons, Bool.or_eq_false_iff, beq_eq_false_iff_ne] at h
    simp [assocLookup, h.1, ih h.2]

theorem assocLookup_append_self {β : Type} (l : List (String × β)) (k : String) (v : β)
    (h : assocLookup l k = none) : assocLookup (l ++ [(k, v)]) k = some v := by
  induction l with
  | nil => simp [assocLookup]
  | cons p rest ih =>
    obtain ⟨pk, pv⟩ := p
    by_cases hk : pk = k
    · simp [assocLookup, hk] at h
    · simp only [assocLookup, hk, if_false] at h
      simpa [assocLookup, hk] using ih h

theorem assocLookup_append_ne {β : Type} (l : List (String × β)) (k k2 : String) (v : β)
    (hne : k2 ≠ k) : assocLookup (l ++ [(k, v)]) k2 = assocLookup l k2 := by
  induction l with
  | nil => simp [assocLookup, Ne.symm hne]
  | cons p rest ih =>
    obtain ⟨pk, pv⟩ := p
    by_cases hk : pk = k2 <;> simp [assocLookup, hk, ih]

theorem assocLookup_map_overwrite {β : Type} (l : List (String × β)) (k : String) (v : β)
    (h : l.any (fun p => p.1 == k) = true) :
    assocLookup (l.map (fun p => if p.1 = k then (k, v) else p)) k = some v := by
  induction l with
  | nil => simp at h
  | cons p rest ih =>
    obtain ⟨pk, pv⟩ := p
    by_cases hk : pk = k
    · subst hk
      have hhead : (fun p : String × β => if p.1 = pk then (pk, v) else p) (pk, pv) = (pk, v) := by
        simp
      simp only [List.map_cons, hhead]
      simp [assocLookup]
    · have hhead : (fun p : String × β => if p.1 = k then (k, v) else p) (pk, pv) = (pk, pv) := by
        simp [hk]
      simp only [List.any_cons, Bool.or_eq_true, beq_iff_eq] at h
      rcases h with h | h
      · exact absurd h hk
      · simp only [List.map_cons, hhead]
        simpa [assocLookup, hk] using ih h

theorem assocLookup_map_other {β : Type} (l : List (String × β)) (k k2 : String) (v : β)
    (hne : k2 ≠ k) :
    assocLookup (l.map (fun p => if p.1 = k then (k, v) else p)) k2 = assocLookup l k2 := by
  induction l with
  | nil => rfl
  | cons p rest ih =>
    obtain ⟨pk, pv⟩ := p
    by_cases hk : pk = k
    · subst hk
      have hhead : (fun p : String × β => if p.1 = pk then (pk, v) else p) (pk, pv) = (pk, v) := by
        simp
      simp only [List.map_cons, hhead]
      simp [assocLookup, Ne.symm hne, hne, ih]
    · have hhead : (fun p : String × β => if p.1 = k then (k, v) else p) (pk, pv) = (pk, pv) := by
        simp [hk]
      simp only [List.map_cons, hhead]
      by_cases hk2 : pk = k2 <;> simp [assocLookup, hk2, ih]

theorem assocLookup_assocSet_self {β : Type} (l : List (String × β)) (k : String) (v : β) :
    assocLookup (assocSet l k v) k = some v := by
  unfold assocSet
  split
  · exact assocLookup_map_overwrite l k v (by assumption)
  · next h =>
    exact assocLookup_append_self l k v
      (assocLookup_eq_none l k (Bool.not_eq_true _ ▸ eq_false_of_ne_true h))

theorem assocLookup_assocSet_ne {β : Type} (l : List (String × β)) (k k2 : String) (v : β)
    (hne : k2 ≠ k) : assocLookup (assocSet l k v) k2 = assocLookup l k2 := by
  unfold assocSet
  split
  · exact assocLookup_map_other l k k2 v hne
  · exact assocLookup_append_ne l k k2 v hne

theorem rowGet_rowSet_self (row : Row) (k : String) (v : Value) :
    rowGet (rowSet row k v) k = some v :=
  assocLookup_assocSet_self row k v

theorem rowGet_rowSet_ne (row : Row) (k k2 : String) (v : Value) (hne : k2 ≠ k) :
    rowGet (rowSet row k v) k2 = rowGet row k2 :=
  assocLookup_assocSet_ne row k k2 v hne

theorem cache_result_mem (c : Engine.Cache) (k : String) (f : Unit → List Row) :
    assocLookup (Engine.cache_result c k f).2 k = some (Engine.cache_result c k f).1 := by
  unfold Engine.cache_result
  cases h : assocLookup c k with
  | some v => simp [h]
  | none => simp [h, assocLookup_append_self c k (f ()) h]

theorem le_foldl_max_self (xs : List Int) : ∀ x : Int, x ≤ xs.foldl max x := by
  induction xs with
  | nil => intro x; exact le_refl x
  | cons y ys ih => intro x; exact le_trans (le_max_left x y) (ih (max x y))

theorem le_foldl_max (xs : List Int) :
    ∀ x n : Int, n = x ∨ n ∈ xs → n ≤ xs.foldl max x := by
  induction xs with
  | nil =>
    intro x n h
    rcases h with h | h
    · exact h ▸ le_refl x
    · cases h
  | cons y ys ih =>
    intro x n h
    rcases h with h | h
    · subst h
      exact le_trans (le_max_left n y) (le_foldl_max_self ys _)
    · rcases List.mem_cons.mp h with h | h
      · subst h
        exact le_trans (le_max_right x n) (le_foldl_max_self ys _)
      · exact ih (max x y) n (Or.inr h)

theorem arrange_columns_ok (parsed schema : List Column)
    (h : Core.arrange_columns parsed = Except.ok schema) :
    schema.head? = some ⟨"ID", "int"⟩ ∧
    schema.filter (fun c => c.name != "ID") = parsed.filter (fun c => c.name != "ID") ∧
    (∀ c ∈ parsed, c.name = "ID" → c.type = "int") ∧
    ((∀ c ∈ parsed, c.name ≠ "ID") → schema = ⟨"ID", "int"⟩ :: parsed) := by
  unfold Core.arrange_columns at h
  by_cases hid : parsed.any (fun c => c.name == "ID") = true
  · rw [if_pos hid] at h
    by_cases hbad : parsed.any (fun c => c.name == "ID" && c.type != "int") = true
    · rw [if_pos hbad] at h
      cases h
    · rw [if_neg hbad] at h
      injection h with h
      subst h
      have hidint : ∀ c ∈ parsed, c.name = "ID" → c.type = "int" := by
        intro c hc hname
        by_contra hty
        exact hbad (List.any_eq_true.mpr ⟨c, hc, by simp [hname, hty]⟩)
      obtain ⟨c1, hc1, hc1n⟩ : ∃ c ∈ parsed, c.name = "ID" := by
        simpa [List.any_eq_true] using hid
      refine ⟨?_, ?_, hidint, ?_⟩
      · cases hf : parsed.filter (fun c => c.name == "ID") with
        | nil =>
          exfalso
          have : c1 ∈ parsed.filter (fun c => c.name == "ID") :=
            List.mem_filter.mpr ⟨hc1, by simp [hc1n]⟩
          rw [hf] at this
          cases this
        | cons c0 cs =>
          have hc0 : c0 ∈ parsed.filter (fun c => c.name == "ID") := by
            rw [hf]; exact List.mem_cons_self c0 cs
          obtain ⟨hc0p, hc0n⟩ := List.mem_filter.mp hc0
          have hc0name : c0.name = "ID" := by simpa using hc0n
          have hc0type : c0.type = "int" := hidint c0 hc0p hc0name
          have : c0 = ⟨"ID", "int"⟩ := by
            obtain ⟨n, t⟩ := c0
            simp only [Column.mk.injEq]
            exact ⟨hc0name, hc0type⟩
          rw [this]
          rfl
      · rw [List.filter_append]
        have h1 : (parsed.filter (fun c => c.name == "ID")).filter
            (fun c => c.name != "ID") = [] := by
          rw [List.filter_eq_nil_iff]
          intro a ha
          have := (List.mem_filter.mp ha).2
          simp at this ⊢
          exact this
        have h2 : (parsed.filter (fun c => c.name != "ID")).filter
            (fun c => c.name != "ID") = parsed.filter (fun c => c.name != "ID") := by
          rw [List.filter_eq_self]
          intro a ha
          exact (List.mem_filter.mp ha).2
        rw [h1, h2, List.nil_append]
      · intro hall
        exact absurd hc1n (hall c1 hc1)
  · rw [if_neg hid] at h
    injection h with h
    subst h
    have hno : ∀ c ∈ parsed, c.name ≠ "ID" := by
      intro c hc
      by_contra hname
      exact hid (List.any_eq_true.mpr ⟨c, hc, by simp at hname ⊢; exact hname⟩)
    refine ⟨rfl, ?_, ?_, fun _ => rfl⟩
    · simp [List.filter_cons]
    · intro c hc hname
      exact absurd hname (hno c hc)

theorem create_table_ok (md : Metadata) (tn : String) (cols : List String) (md2 : Metadata)
    (h : Core.create_table md tn cols = Except.ok md2) :
    ∃ parsed schema, Core.parse_columns cols = Except.ok parsed ∧
      Core.arrange_columns parsed = Except.ok schema ∧
      md2 = md ++ [(tn, schema)] ∧
      assocLookup md2 tn = some schema := by
  unfold Core.create_table at h
  by_cases hex : md.any (fun p => p.1 == tn) = true
  · rw [if_pos hex] at h
    cases h
  · rw [if_neg hex] at h
    split at h
    · cases h
    · rename_i parsed hp
      split at h
      · cases h
      · rename_i schema ha
        injection h with h
        refine ⟨parsed, schema, hp, ha, h.symm, ?_⟩
        rw [← h]
        exact assocLookup_append_self md tn schema
          (assocLookup_eq_none md tn (Bool.not_eq_true _ ▸ eq_false_of_ne_true hex))

theorem convert_value_toOption (raw t : String) :
    Engine.convert_value raw t = (Core.convert_value raw t).toOption := by
  unfold Engine.convert_value Core.convert_value
  split_ifs <;> first
    | rfl
    | (cases pyInt raw <;> rfl)

/-!
Claim theorems. Each claim of the specification is settled by exactly one
theorem below (plus a counterexample theorem when the claim fails as stated,
and a witness theorem when the main theorem carries hypotheses).
-/

/-- Claim C4: the value coercion used by `core.insert` and the value
coercion used by the engine for select-where, update and delete accept
exactly the same raw tokens for a declared type, and produce the same typed
value. -/
theorem convert_value_equiv :
    (∀ (raw t : String) (v : Value),
      Core.convert_value raw t = Except.ok v → Engine.convert_value raw t = some v) ∧
    (∀ (raw t : String) (v : Value),
      Engine.convert_value raw t = some v → Core.convert_value raw t = Except.ok v) := by
  constructor
  · intro raw t v h
    rw [convert_value_toOption, h]
    rfl
  · intro raw t v h
    rw [convert_value_toOption] at h
    cases hc : Core.convert_value raw t with
    | ok w => rw [hc] at h; injection h with h; rw [h]
    | error e => rw [hc] at h; cases h

/-- Witness for C4: both coercions agree on a concrete integer token and a
concrete boolean token. -/
theorem convert_value_equiv_witness :
    Engine.convert_value "30" "int" = some (Value.vInt 30)
    ∧ Core.convert_value "true" "bool" = Except.ok (Value.vBool true) :=
  ⟨convert_value_equiv.1 "30" "int" (Value.vInt 30) (by decide),
   convert_value_equiv.2 "true" "bool" (Value.vBool true) (by decide)⟩

/-- Claim C6 as stated is false: the assignment parser also accepts token
lists of more than three tokens whose second token is `=`, silently ignoring
the extra tokens. -/
theorem parse_assignment_extra_tokens_cex :
    Engine.parse_assignment ["a", "=", "b", "c"] = some ("a", "b") := by decide

/-- Claim C6 (amended): the assignment parser succeeds in exactly two
shapes — a single token containing `=`, split on its first `=`, or three or
more tokens whose second token is `=`, taking the first and third token and
ignoring any further tokens — with both sides non-empty after trimming;
every other shape fails. -/
theorem parse_assignment_amended :
    (∀ (c v : String) (rest : List String),
      Engine.parse_assignment (c :: "=" :: v :: rest)
        = if pyStrip c = "" ∨ pyStrip v = "" then none
          else some (pyStrip c, pyStrip v)) ∧
    (∀ tok : String,
      Engine.parse_assignment [tok]
        = if tok.data.contains '=' then
            (if pyStrip (Engine.py_split_eq tok).1 = "" ∨ pyStrip (Engine.py_split_eq tok).2 = ""
             then none
             else some (pyStrip (Engine.py_split_eq tok).1, pyStrip (Engine.py_split_eq tok).2))
          else none) ∧
    Engine.parse_assignment [] = none ∧
    (∀ a b : String, Engine.parse_assignment [a, b] = none) ∧
    (∀ (t0 t1 t2 : String) (rest : List String), t1 ≠ "=" →
      Engine.parse_assignment (t0 :: t1 :: t2 :: rest) = none) := by
  refine ⟨?_, ?_, rfl, ?_, ?_⟩
  · intro c v rest
    simp [Engine.parse_assignment, List.getD]
  · intro tok
    by_cases h : tok.data.contains '=' = true
    · simp [Engine.parse_assignment, List.getD, h]
    · simp [Engine.parse_assignment, List.getD, h]
  · intro a b
    simp [Engine.parse_assignment]
  · intro t0 t1 t2 rest h
    simp [Engine.parse_assignment, List.getD, h]

/-- Witness for C6 at a three-token list whose middle token is not `=`. -/
theorem parse_assignment_amended_witness :
    Engine.parse_assignment ["a", "x", "b"] = none :=
  parse_assignment_amended.2.2.2.2 "a" "x" "b" [] (by decide)

/-- Claim C2: every successful `create_table` stores a schema whose first
column is `{ID, int}`; `{ID, int}` is prepended when no `ID` spec is given;
a given `ID` spec must declare type `int`; and the relative order of all
non-ID columns of the input is preserved in the stored schema. -/
theorem create_table_id_first :
    ∀ (md : Metadata) (tn : String) (cols : List String) (md2 : Metadata),
    Core.create_table md tn cols = Except.ok md2 →
    ∃ parsed schema,
      Core.parse_columns cols = Except.ok parsed ∧
      assocLookup md2 tn = some schema ∧
      schema.head? = some ⟨"ID", "int"⟩ ∧
      schema.filter (fun c => c.name != "ID") = parsed.filter (fun c => c.name != "ID") ∧
      (∀ c ∈ parsed, c.name = "ID" → c.type = "int") ∧
      ((∀ c ∈ parsed, c.name ≠ "ID") → schema = ⟨"ID", "int"⟩ :: parsed) := by
  intro md tn cols md2 h
  obtain ⟨parsed, schema, hp, ha, _, hlook⟩ := create_table_ok md tn cols md2 h
  obtain ⟨h1, h2, h3, h4⟩ := arrange_columns_ok parsed schema ha
  exact ⟨parsed, schema, hp, hlook, h1, h2, h3, h4⟩

/-- Witness for C2 at `create_table users name:str age:int`. -/
theorem create_table_id_first_witness :
    ((assocLookup [("users", [Column.mk "ID" "int", Column.mk "name" "str",
        Column.mk "age" "int"])] "users").getD []).head? = some ⟨"ID", "int"⟩ := by
  obtain ⟨parsed, schema, hp, hlook, hhead, _⟩ :=
    create_table_id_first [] "users" ["name:str", "age:int"]
      [("users", [⟨"ID", "int"⟩, ⟨"name", "str"⟩, ⟨"age", "int"⟩])] (by decide)
  rw [hlook]
  exact hhead

theorem filter_id_single_of_pairwise (parsed : List Column)
    (hpw : parsed.Pairwise (fun c d => c.name ≠ d.name))
    (hid : parsed.any (fun c => c.name == "ID") = true) :
    ∃ c, parsed.filter (fun c => c.name == "ID") = [c] := by
  induction parsed with
  | nil => simp at hid
  | cons c0 rest ih =>
    rw [List.pairwise_cons] at hpw
    by_cases hc0 : c0.name = "ID"
    · refine ⟨c0, ?_⟩
      rw [List.filter_cons_of_pos (by simp [hc0])]
      have hnil : rest.filter (fun c => c.name == "ID") = [] := by
        rw [List.filter_eq_nil_iff]
        intro a ha
        have := hpw.1 a ha
        simp only [beq_iff_eq]
        intro haid
        exact this (hc0.trans haid.symm)
      rw [hnil]
    · rw [List.filter_cons_of_neg (by simp [hc0])]
      apply ih hpw.2
      simp only [List.any_cons, Bool.or_eq_true, beq_iff_eq] at hid
      rcases hid with h | h
      · exact absurd h hc0
      · exact h

theorem arrange_columns_unique (parsed schema : List Column)
    (h : Core.arrange_columns parsed = Except.ok schema)
    (hpw : parsed.Pairwise (fun c d => c.name ≠ d.name)) :
    schema.head? = some ⟨"ID", "int"⟩ ∧
    schema.tail.Pairwise (fun c d => c.name ≠ d.name) ∧
    (∀ c ∈ schema.tail, c.name ≠ "ID") := by
  unfold Core.arrange_columns at h
  by_cases hid : parsed.any (fun c => c.name == "ID") = true
  · rw [if_pos hid] at h
    by_cases hbad : parsed.any (fun c => c.name == "ID" && c.type != "int") = true
    · rw [if_pos hbad] at h
      cases h
    · rw [if_neg hbad] at h
      injection h with h
      subst h
      obtain ⟨c, hf⟩ := filter_id_single_of_pairwise parsed hpw hid
      rw [hf]
      have hcmem : c ∈ parsed.filter (fun c => c.name == "ID") := by
        rw [hf]; exact List.mem_cons_self c []
      obtain ⟨hcp, hcn⟩ := List.mem_filter.mp hcmem
      have hcname : c.name = "ID" := by simpa using hcn
      have hctype : c.type = "int" := by
        by_contra hty
        exact hbad (List.any_eq_true.mpr ⟨c, hcp, by simp [hcname, hty]⟩)
      have hco : c = ⟨"ID", "int"⟩ := by
        obtain ⟨n, t⟩ := c
        simp only [Column.mk.injEq]
        exact ⟨hcname, hctype⟩
      refine ⟨by rw [hco]; rfl, ?_, ?_⟩
      · exact List.Pairwise.sublist (List.filter_sublist parsed) hpw
      · intro d hd
        have := (List.mem_filter.mp hd).2
        simpa using this
  · rw [if_neg hid] at h
    injection h with h
    subst h
    refine ⟨rfl, hpw, ?_⟩
    intro d hd hname
    exact hid (List.any_eq_true.mpr ⟨d, hd, by simp [hname]⟩)

/-- Claim C3 as stated is false: `create_table` performs no duplicate-name
check, so a successful call can store a schema whose non-ID column names are
not pairwise distinct. -/
theorem create_table_duplicate_names_cex :
    Core.create_table [] "t" ["a:int", "a:int"]
      = Except.ok [("t", [⟨"ID", "int"⟩, ⟨"a", "int"⟩, ⟨"a", "int"⟩])]
    ∧ ¬ List.Pairwise (fun c d : Column => c.name ≠ d.name)
        [Column.mk "a" "int", Column.mk "a" "int"] := by
  constructor
  · decide
  · intro hpw
    exact (List.pairwise_cons.mp hpw).1 ⟨"a", "int"⟩ (List.mem_singleton.mpr rfl) rfl

/-- Claim C3 (amended): for every successful `create_table` call whose
parsed column specs carry pairwise-distinct names, the stored schema's first
column is `{ID, int}` and every other column name is unique within the
schema and different from `ID`. -/
theorem create_table_unique_names_amended :
    ∀ (md : Metadata) (tn : String) (cols : List String) (md2 : Metadata)
      (parsed schema : List Column),
    Core.create_table md tn cols = Except.ok md2 →
    Core.parse_columns cols = Except.ok parsed →
    parsed.Pairwise (fun c d => c.name ≠ d.name) →
    assocLookup md2 tn = some schema →
    schema.head? = some ⟨"ID", "int"⟩ ∧
    schema.tail.Pairwise (fun c d => c.name ≠ d.name) ∧
    (∀ c ∈ schema.tail, c.name ≠ "ID") := by
  intro md tn cols md2 parsed schema h hp hpw hlook
  obtain ⟨parsed2, schema2, hp2, ha2, _, hlook2⟩ := create_table_ok md tn cols md2 h
  rw [hp] at hp2
  injection hp2 with hp2
  rw [hlook] at hlook2
  injection hlook2 with hlook2
  subst hp2
  subst hlook2
  exact arrange_columns_unique parsed schema ha2 hpw

/-- Witness for C3 (amended) at `create_table users name:str age:int`. -/
theorem create_table_unique_names_amended_witness :
    List.Pairwise (fun c d : Column => c.name ≠ d.name)
      ([Column.mk "ID" "int", Column.mk "name" "str", Column.mk "age" "int"].tail) := by
  have h := create_table_unique_names_amended [] "users" ["name:str", "age:int"]
    [("users", [⟨"ID", "int"⟩, ⟨"name", "str"⟩, ⟨"age", "int"⟩])]
    [⟨"name", "str"⟩, ⟨"age", "int"⟩]
    [⟨"ID", "int"⟩, ⟨"name", "str"⟩, ⟨"age", "int"⟩]
    (by decide) (by decide) (by decide) (by decide)
  exact h.2.1

theorem insert_eq (md : Metadata) (tn : String) (td : List Row) (vals : List String)
    (schema : List Column) (hs : Core.get_table_schema md tn = Except.ok schema) :
    Core.insert md tn td vals =
      (if vals.length ≠ (schema.filter (fun c => c.name != "ID")).length
       then Except.error "value count does not match schema"
       else
         match Core.build_record (schema.filter (fun c => c.name != "ID")) vals [] with
         | Except.error e => Except.error e
         | Except.ok record =>
           Except.ok (td ++ [rowSet record "ID" (Value.vInt
               (match Core.existing_ids td with
                | [] => 1
                | x :: xs => xs.foldl max x + 1))],
             (match Core.existing_ids td with
              | [] => 1
              | x :: xs => xs.foldl max x + 1))) := by
  unfold Core.insert
  rw [hs]

/-- Claim C1 as stated is false: after deleting the row carrying the maximal
ID, the next insert computes `max + 1` over the surviving rows only and
assigns exactly the previously deleted ID again. -/
theorem insert_reuses_deleted_id_cex :
    Core.delete [[("ID", Value.vInt 1)], [("ID", Value.vInt 2)]] ("ID", Value.vInt 2)
      = ([[("ID", Value.vInt 1)]], [2])
    ∧ Core.insert [("t", [⟨"ID", "int"⟩])] "t" [[("ID", Value.vInt 1)]] []
      = Except.ok ([[("ID", Value.vInt 1)], [("ID", Value.vInt 2)]], 2) := by
  decide

/-- Claim C1 (amended): a successful insert assigns the new row the ID
`max + 1` over the integer IDs present in the row list (`1` when there is
none), so the new ID is strictly greater than every integer ID currently in
the row list and never collides with an existing row; an ID freed by an
earlier delete can however be reassigned once it exceeds the surviving
maximum. -/
theorem insert_id_max_plus_one :
    ∀ (md : Metadata) (tn : String) (td : List Row) (vals : List String)
      (td2 : List Row) (i : Int),
    Core.insert md tn td vals = Except.ok (td2, i) →
    (∀ n ∈ Core.existing_ids td, n < i) ∧
    (Core.existing_ids td = [] → i = 1) ∧
    (∀ (x : Int) (xs : List Int), Core.existing_ids td = x :: xs →
      i = xs.foldl max x + 1) := by
  intro md tn td vals td2 i h
  cases hs : Core.get_table_schema md tn with
  | error e =>
    unfold Core.insert at h
    rw [hs] at h
    cases h
  | ok schema =>
    rw [insert_eq md tn td vals schema hs] at h
    split at h
    · cases h
    · split at h
      · cases h
      · injection h with h
        have h2 : (match Core.existing_ids td with
            | [] => (1 : Int)
            | x :: xs => xs.foldl max x + 1) = i := congrArg Prod.snd h
        refine ⟨?_, ?_, ?_⟩
        · intro n hn
          cases hids : Core.existing_ids td with
          | nil => rw [hids] at hn; cases hn
          | cons x xs =>
            rw [hids] at h2 hn
            have hle : n ≤ xs.foldl max x :=
              le_foldl_max xs x n (List.mem_cons.mp hn)
            rw [← h2]
            exact Int.lt_add_one_iff.mpr hle
        · intro hids
          rw [hids] at h2
          exact h2.symm
        · intro x xs hids
          rw [hids] at h2
          exact h2.symm

/-- Witness for C1 (amended): inserting into a table whose only row has ID 5
assigns ID 6, strictly above the present ID 5. -/
theorem insert_id_max_plus_one_witness :
    (5 : Int) ∈ Core.existing_ids [[("ID", Value.vInt 5)]] ∧ (5 : Int) < 6 := by
  have h := insert_id_max_plus_one [("t", [⟨"ID", "int"⟩])] "t"
    [[("ID", Value.vInt 5)]] [] [[("ID", Value.vInt 5)], [("ID", Value.vInt 6)]] 6
    (by decide)
  exact ⟨by decide, h.1 5 (by decide)⟩

theorem build_record_keys :
    ∀ (cols : List Column) (vs : List String) (acc record : Row),
    Core.build_record cols vs acc = Except.ok record →
    (∀ k : String, (∃ v, rowGet acc k = some v) → ∃ v, rowGet record k = some v) ∧
    (∀ c ∈ cols, ∃ v, rowGet record c.name = some v) := by
  intro cols
  induction cols with
  | nil =>
    intro vs acc record h
    cases vs with
    | nil =>
      unfold Core.build_record at h
      injection h with h
      subst h
      exact ⟨fun k hk => hk, by simp⟩
    | cons v vs2 =>
      unfold Core.build_record at h
      cases h
  | cons c cs ih =>
    intro vs acc record h
    cases vs with
    | nil =>
      unfold Core.build_record at h
      cases h
    | cons v vs2 =>
      unfold Core.build_record at h
      split at h
      · cases h
      · rename_i tv htv
        have hrest := ih vs2 (rowSet acc c.name tv) record h
        constructor
        · intro k hk
          apply hrest.1
          obtain ⟨v0, hv0⟩ := hk
          by_cases hkc : k = c.name
          · subst hkc
            exact ⟨tv, rowGet_rowSet_self acc c.name tv⟩
          · exact ⟨v0, by rw [rowGet_rowSet_ne acc c.name k tv hkc]; exact hv0⟩
        · intro c2 hc2
          rcases List.mem_cons.mp hc2 with h2 | h2
          · subst h2
            exact hrest.1 c2.name ⟨tv, rowGet_rowSet_self acc c2.name tv⟩
          · exact hrest.2 c2 h2

/-- Claim C7: `insert` fails when the number of raw values differs from the
number of non-ID schema columns, and when any value fails coercion against
its declared column type; on success exactly one record is appended, built
from all user columns plus the generated `ID`. (Failure returns only an
error, so the pure row list passed in is never altered.) -/
theorem insert_validation :
    ∀ (md : Metadata) (tn : String) (td : List Row) (vals : List String)
      (schema : List Column),
    Core.get_table_schema md tn = Except.ok schema →
    ((vals.length ≠ (schema.filter (fun c => c.name != "ID")).length →
        Core.insert md tn td vals = Except.error "value count does not match schema") ∧
     (∀ msg : String,
        Core.build_record (schema.filter (fun c => c.name != "ID")) vals [] = Except.error msg →
        vals.length = (schema.filter (fun c => c.name != "ID")).length →
        Core.insert md tn td vals = Except.error msg) ∧
     (∀ (td2 : List Row) (i : Int), Core.insert md tn td vals = Except.ok (td2, i) →
        ∃ record,
          Core.build_record (schema.filter (fun c => c.name != "ID")) vals []
            = Except.ok record ∧
          td2 = td ++ [rowSet record "ID" (Value.vInt i)] ∧
          (∀ c ∈ schema.filter (fun c => c.name != "ID"),
            ∃ v, rowGet record c.name = some v) ∧
          rowGet (rowSet record "ID" (Value.vInt i)) "ID" = some (Value.vInt i))) := by
  intro md tn td vals schema hs
  refine ⟨?_, ?_, ?_⟩
  · intro hlen
    rw [insert_eq md tn td vals schema hs, if_pos hlen]
  · intro msg hbr hlen
    rw [insert_eq md tn td vals schema hs, if_neg (by simp [hlen]), hbr]
  · intro td2 i h
    rw [insert_eq md tn td vals schema hs] at h
    split at h
    · cases h
    · split at h
      · cases h
      · rename_i record hbr
        injection h with h
        have h1 := congrArg Prod.fst h
        have h2 := congrArg Prod.snd h
        simp only at h1 h2
        refine ⟨record, hbr, ?_, ?_, rowGet_rowSet_self record "ID" (Value.vInt i)⟩
        · rw [← h1, ← h2]
        · exact (build_record_keys (schema.filter (fun c => c.name != "ID"))
            vals [] record hbr).2

/-- Witness for C7: an insert with the wrong number of values fails with the
arity error. -/
theorem insert_validation_witness :
    Core.insert [("users", [⟨"ID", "int"⟩, ⟨"name", "str"⟩])] "users" [] ["\"a\"", "2"]
      = Except.error "value count does not match schema" := by
  have h := insert_validation [("users", [⟨"ID", "int"⟩, ⟨"name", "str"⟩])] "users"
    [] ["\"a\"", "2"] [⟨"ID", "int"⟩, ⟨"name", "str"⟩] (by decide)
  exact h.1 (by decide)

theorem update_go_eq (k : String) (v : Value) (wk : String) (wv : Value) :
    ∀ td : List Row,
    Core.update_go [(k, v)] wk wv td
      = (td.map (fun row => if row_matches row wk wv then rowSet row k v else row),
         td.filterMap (fun row =>
           if row_matches row wk wv then
             match rowGet (rowSet row k v) "ID" with
             | some (Value.vInt n) => some n
             | _ => none
           else none)) := by
  intro td
  induction td with
  | nil => rfl
  | cons row rest ih =>
    simp only [Core.update_go, ih, List.map_cons, List.filterMap_cons]
    by_cases hm : row_matches row wk wv
    · simp only [if_pos hm, List.foldl_cons, List.foldl_nil]
      cases hg : rowGet (rowSet row k v) "ID" with
      | none => simp [hg]
      | some val =>
        cases val with
        | vInt n => simp [hg]
        | vStr s => simp [hg]
        | vBool b => simp [hg]
    · simp [if_neg hm]

/-- Claim C9: `update` assigns exactly the set column of every row matching
the predicate (all other fields of that row keep their values), leaves every
non-matching row unchanged, and collects the integer `ID` of every matched
row, skipping collection — but not the update — when the `ID` is missing or
not an integer. -/
theorem update_frame :
    ∀ (td : List Row) (k : String) (v : Value) (wk : String) (wv : Value),
    (Core.update td [(k, v)] (wk, wv)).1
        = td.map (fun row => if row_matches row wk wv then rowSet row k v else row) ∧
    (Core.update td [(k, v)] (wk, wv)).2
        = td.filterMap (fun row =>
            if row_matches row wk wv then
              match rowGet (rowSet row k v) "ID" with
              | some (Value.vInt n) => some n
              | _ => none
            else none) ∧
    (∀ (row : Row) (k2 : String), k2 ≠ k → rowGet (rowSet row k v) k2 = rowGet row k2) ∧
    (∀ row : Row, rowGet (rowSet row k v) k = some v) := by
  intro td k v wk wv
  refine ⟨?_, ?_,
    fun row k2 h => rowGet_rowSet_ne row k k2 v h,
    fun row => rowGet_rowSet_self row k v⟩
  · rw [Core.update, update_go_eq]
  · rw [Core.update, update_go_eq]

/-- Witness for C9: updating `age` leaves the `ID` field of a row
unchanged. -/
theorem update_frame_witness :
    rowGet (rowSet [("ID", Value.vInt 1), ("age", Value.vInt 30)] "age" (Value.vInt 31)) "ID"
      = rowGet [("ID", Value.vInt 1), ("age", Value.vInt 30)] "ID" :=
  (update_frame [[("ID", Value.vInt 1), ("age", Value.vInt 30)]] "age" (Value.vInt 31)
    "ID" (Value.vInt 1)).2.2.1
    [("ID", Value.vInt 1), ("age", Value.vInt 30)] "ID" (by decide)

theorem pvl_loop_eq_split :
    ∀ (cs : List Char) (inq : Option Char) (acc : List String) (buf : List Char),
    Engine.pvl_loop cs acc buf inq
      = (if (String.mk (stripChars (buf ++ (split_outside cs inq).1))
              :: (split_outside cs inq).2.map (fun l => String.mk (stripChars l))).any
              (fun t => t == "")
         then none
         else some (acc ++ String.mk (stripChars (buf ++ (split_outside cs inq).1))
              :: (split_outside cs inq).2.map (fun l => String.mk (stripChars l)))) := by
  intro cs
  induction cs with
  | nil =>
    intro inq acc buf
    simp only [Engine.pvl_loop, split_outside, List.append_nil, List.map_nil,
      List.any_cons, List.any_nil, Bool.or_false]
    by_cases h : String.mk (stripChars buf) = ""
    · simp [h]
    · simp [h]
  | cons ch rest ih =>
    intro inq acc buf
    by_cases hq : ch = '"' ∨ ch = squote
    · simp only [Engine.pvl_loop, split_outside, if_pos hq]
      rw [ih]
      simp [List.append_assoc]
    · by_cases hc : ch = ',' ∧ inq = none
      · simp only [Engine.pvl_loop, split_outside, if_neg hq, if_pos hc]
        by_cases ht : String.mk (stripChars buf) = ""
        · simp [ht]
        · rw [if_neg ht, ih]
          simp only [List.nil_append, List.map_cons, List.any_cons, List.append_nil]
          have hbt : (String.mk (stripChars buf) == "") = false := by
            simp [ht]
          simp [hbt, List.append_assoc]
      · simp only [Engine.pvl_loop, split_outside, if_neg hq, if_neg hc]
        rw [ih]
        simp [List.append_assoc]

/-- Claim C5 as stated is false: an input with an unbalanced quote parses
successfully (the in-quote flag only suppresses comma splitting and is never
checked at the end), and an input with leading whitespace before `(` also
parses successfully (the parser trims the input first). -/
theorem parse_values_list_cex :
    Engine.parse_values_list "(\"a)" = some ["\"a"]
    ∧ Engine.parse_values_list " (1) " = some ["1"] := by decide

/-- Claim C5 (amended): after trimming, the input must be wrapped in `(` and
`)`; an empty trimmed interior yields the empty list; otherwise the result
is the interior split on exactly the commas occurring outside quotes (a
quote character toggles an in-quote flag closed by the same character), with
every token trimmed, failing exactly when some token trims to empty.
Unbalanced quoting is not by itself a failure. -/
theorem parse_values_list_amended :
    ∀ s : String, Engine.parse_values_list s = parse_values_list_spec s := by
  intro s
  simp only [Engine.parse_values_list, parse_values_list_spec]
  by_cases h1 : (stripChars s.data).head? = some '(' ∧ (stripChars s.data).getLast? = some ')'
  · rw [if_pos h1, if_pos h1]
    by_cases h2 : stripChars ((stripChars s.data).drop 1).dropLast = []
    · rw [if_pos h2, if_pos h2]
    · rw [if_neg h2, if_neg h2, pvl_loop_eq_split]
      simp [values_tokens_spec]
  · rw [if_neg h1, if_neg h1]

theorem cache_result_hit (c : Engine.Cache) (k : String) (v : List Row)
    (f : Unit → List Row) (h : assocLookup c k = some v) :
    Engine.cache_result c k f = (v, c) := by
  unfold Engine.cache_result
  rw [h]

theorem cache_result_empty (k : String) (f : Unit → List Row) :
    Engine.cache_result [] k f = (f (), [(k, f ())]) := by
  simp [Engine.cache_result, assocLookup]

theorem step_drop_cache (s : Engine.Session) (tn : String) (conf : Bool) :
    (Engine.step_drop s tn conf).cache = s.cache := by
  unfold Engine.step_drop
  split
  · rfl
  · split <;> rfl

theorem step_create_cache (s : Engine.Session) (tn : String) (cols : List String) :
    (Engine.step_create s tn cols).cache = s.cache := by
  unfold Engine.step_create
  split <;> rfl

theorem step_select_cached (s : Engine.Session) (tn : String) (rows : List Row)
    (sch : List Column) (hg : Engine.get_schema s.metadata tn = some sch)
    (hc : assocLookup s.cache (Engine.select_key tn none) = some rows) :
    (Engine.step_select s tn none).1 = some rows := by
  simp only [Engine.step_select, hg]
  rw [cache_result_hit s.cache _ rows _ hc]

theorem step_select_cached_where (s : Engine.Session) (tn col raw ty : String)
    (tv : Value) (rows : List Row) (sch : List Column)
    (hg : Engine.get_schema s.metadata tn = some sch)
    (ht : Engine.get_col_type sch col = some ty)
    (hcv : Engine.convert_value raw ty = some tv)
    (hc : assocLookup s.cache (Engine.select_key tn (some (col, tv))) = some rows) :
    (Engine.step_select s tn (some (col, raw))).1 = some rows := by
  simp only [Engine.step_select, hg, ht, hcv]
  rw [cache_result_hit s.cache _ rows _ hc]

theorem step_select_idem :
    ∀ (s : Engine.Session) (tn : String) (w : Option (String × String))
      (r1 : List Row) (s1 : Engine.Session),
    Engine.step_select s tn w = (some r1, s1) →
    Engine.step_select s1 tn w = (some r1, s1) := by
  intro s tn w r1 s1 h
  cases hg : Engine.get_schema s.metadata tn with
  | none =>
    simp only [Engine.step_select, hg] at h
    rw [Prod.mk.injEq] at h
    exact Option.noConfusion h.1
  | some schema =>
    cases w with
    | none =>
      simp only [Engine.step_select, hg] at h
      rw [Prod.mk.injEq] at h
      obtain ⟨hfst, hsnd⟩ := h
      injection hfst with hfst
      have hg1 : Engine.get_schema s1.metadata tn = some schema := by
        rw [← hsnd]; exact hg
      simp only [Engine.step_select, hg1]
      have hcache : assocLookup s1.cache (Engine.select_key tn none) = some r1 := by
        rw [← hsnd, ← hfst]
        exact cache_result_mem s.cache (Engine.select_key tn none) _
      rw [cache_result_hit s1.cache _ r1 _ hcache]
    | some pair =>
      obtain ⟨col, raw⟩ := pair
      simp only [Engine.step_select, hg] at h
      cases ht : Engine.get_col_type schema col with
      | none =>
        simp only [ht] at h
        rw [Prod.mk.injEq] at h
        exact Option.noConfusion h.1
      | some ty =>
        simp only [ht] at h
        cases hcv : Engine.convert_value raw ty with
        | none =>
          simp only [hcv] at h
          rw [Prod.mk.injEq] at h
          exact Option.noConfusion h.1
        | some tv =>
          simp only [hcv] at h
          rw [Prod.mk.injEq] at h
          obtain ⟨hfst, hsnd⟩ := h
          injection hfst with hfst
          have hg1 : Engine.get_schema s1.metadata tn = some schema := by
            rw [← hsnd]; exact hg
          simp only [Engine.step_select, hg1, ht, hcv]
          have hcache : assocLookup s1.cache
              (Engine.select_key tn (some (col, tv))) = some r1 := by
            rw [← hsnd, ← hfst]
            exact cache_result_mem s.cache (Engine.select_key tn (some (col, tv))) _
          rw [cache_result_hit s1.cache _ r1 _ hcache]

theorem step_insert_clears (s : Engine.Session) (tn : String) (vals : List String)
    (d : List Row) (i : Int) (sch : List Column)
    (hg : Engine.get_schema s.metadata tn = some sch)
    (hins : Core.insert s.metadata tn (Engine.load_rows s tn) vals = Except.ok (d, i)) :
    (Engine.step_insert s tn vals).cache = [] := by
  simp only [Engine.step_insert, hg, hins]

theorem step_update_clears (s : Engine.Session) (tn : String) (sc w : String × Value)
    (sch : List Column) (hg : Engine.get_schema s.metadata tn = some sch)
    (hne : (Core.update (Engine.load_rows s tn) [sc] w).2 ≠ []) :
    (Engine.step_update s tn sc w).cache = [] := by
  simp only [Engine.step_update, hg]
  rw [if_neg hne]

theorem step_delete_clears (s : Engine.Session) (tn : String) (w : String × Value)
    (sch : List Column) (hg : Engine.get_schema s.metadata tn = some sch)
    (hne : (Core.delete (Engine.load_rows s tn) w).2 ≠ []) :
    (Engine.step_delete s tn w true).cache = [] := by
  simp only [Engine.step_delete, hg, not_true, if_false]
  rw [if_neg hne]

/-- Claim C8: a cache hit returns the stored result for any compute
function; two consecutive selects with the same table and predicate and no
mutation in between return the same rows and leave the session unchanged;
every successful insert, update, or delete step replaces the whole cache by
a fresh empty one, and a lookup in the empty cache always recomputes. -/
theorem cache_semantics :
    (∀ (c : Engine.Cache) (k : String) (v : List Row) (f : Unit → List Row),
        assocLookup c k = some v → Engine.cache_result c k f = (v, c)) ∧
    (∀ (s : Engine.Session) (tn : String) (w : Option (String × String))
        (r1 : List Row) (s1 : Engine.Session),
        Engine.step_select s tn w = (some r1, s1) →
        Engine.step_select s1 tn w = (some r1, s1)) ∧
    (∀ (k : String) (f : Unit → List Row),
        Engine.cache_result [] k f = (f (), [(k, f ())])) ∧
    (∀ (s : Engine.Session) (tn : String) (vals : List String) (d : List Row)
        (i : Int) (sch : List Column),
        Engine.get_schema s.metadata tn = some sch →
        Core.insert s.metadata tn (Engine.load_rows s tn) vals = Except.ok (d, i) →
        (Engine.step_insert s tn vals).cache = []) ∧
    (∀ (s : Engine.Session) (tn : String) (sc w : String × Value) (sch : List Column),
        Engine.get_schema s.metadata tn = some sch →
        (Core.update (Engine.load_rows s tn) [sc] w).2 ≠ [] →
        (Engine.step_update s tn sc w).cache = []) ∧
    (∀ (s : Engine.Session) (tn : String) (w : String × Value) (sch : List Column),
        Engine.get_schema s.metadata tn = some sch →
        (Core.delete (Engine.load_rows s tn) w).2 ≠ [] →
        (Engine.step_delete s tn w true).cache = []) :=
  ⟨cache_result_hit, step_select_idem, cache_result_empty,
   step_insert_clears, step_update_clears, step_delete_clears⟩

/-- Witness for C8: a successful insert step on a session holding a stale
cache entry leaves the empty cache. -/
theorem cache_semantics_witness :
    (Engine.step_insert ⟨[("t", [⟨"ID", "int"⟩])], [], [("stale", [])]⟩ "t" []).cache
      = [] :=
  cache_semantics.2.2.2.1 ⟨[("t", [⟨"ID", "int"⟩])], [], [("stale", [])]⟩ "t" []
    [[("ID", Value.vInt 1)]] 1 [⟨"ID", "int"⟩] (by decide) (by decide)

/-- Claim C10 as stated is false: a successful `drop_table` indeed never
clears the cache, but a select on the dropped table itself fails the
existence check and returns no rows, not the still-cached pre-drop
sequence. -/
theorem drop_then_select_cex :
    assocLookup (Engine.Session.mk [("users", [⟨"ID", "int"⟩])]
        [("users", [[("ID", Value.vInt 1)]])]
        [("select:users:all", [[("ID", Value.vInt 1)]])]).cache "select:users:all"
      = some [[("ID", Value.vInt 1)]]
    ∧ (Engine.step_select (Engine.step_drop (Engine.Session.mk [("users", [⟨"ID", "int"⟩])]
        [("users", [[("ID", Value.vInt 1)]])]
        [("select:users:all", [[("ID", Value.vInt 1)]])]) "users" true) "users" none).1
      = none := by
  decide

/-- Claim C10 (amended): successful `drop_table` and `create_table` steps
never clear or invalidate the query cache, and a select on a table that
still exists after the drop, whose table-and-predicate key was cached before
the drop, still returns the cached pre-drop row sequence — both for the
no-predicate key and for a where-select whose column resolves and whose raw
value coerces to the typed value of the cached key. -/
theorem drop_create_preserve_cache :
    (∀ (s : Engine.Session) (tn : String) (conf : Bool),
        (Engine.step_drop s tn conf).cache = s.cache) ∧
    (∀ (s : Engine.Session) (tn : String) (cols : List String),
        (Engine.step_create s tn cols).cache = s.cache) ∧
    (∀ (s : Engine.Session) (tdrop : String) (conf : Bool) (tsel : String)
        (rows : List Row) (sch : List Column),
        Engine.get_schema (Engine.step_drop s tdrop conf).metadata tsel = some sch →
        assocLookup s.cache (Engine.select_key tsel none) = some rows →
        (Engine.step_select (Engine.step_drop s tdrop conf) tsel none).1 = some rows) ∧
    (∀ (s : Engine.Session) (tdrop : String) (conf : Bool) (tsel col raw ty : String)
        (tv : Value) (rows : List Row) (sch : List Column),
        Engine.get_schema (Engine.step_drop s tdrop conf).metadata tsel = some sch →
        Engine.get_col_type sch col = some ty →
        Engine.convert_value raw ty = some tv →
        assocLookup s.cache (Engine.select_key tsel (some (col, tv))) = some rows →
        (Engine.step_select (Engine.step_drop s tdrop conf) tsel (some (col, raw))).1
          = some rows) := by
  refine ⟨step_drop_cache, step_create_cache, ?_, ?_⟩
  · intro s tdrop conf tsel rows sch hg hc
    exact step_select_cached (Engine.step_drop s tdrop conf) tsel rows sch hg
      (by rw [step_drop_cache]; exact hc)
  · intro s tdrop conf tsel col raw ty tv rows sch hg ht hcv hc
    exact step_select_cached_where (Engine.step_drop s tdrop conf) tsel col raw ty
      tv rows sch hg ht hcv (by rw [step_drop_cache]; exact hc)

/-- Witness for C10 (amended): after dropping `posts`, a no-predicate select
on `users` and a where-select on `users` whose keys were cached before the
drop both still return the cached rows. -/
theorem drop_create_preserve_cache_witness :
    (Engine.step_select (Engine.step_drop
        ⟨[("users", [⟨"ID", "int"⟩]), ("posts", [⟨"ID", "int"⟩])], [],
          [("select:users:all", [[("ID", Value.vInt 7)]])]⟩ "posts" true)
      "users" none).1 = some [[("ID", Value.vInt 7)]]
    ∧ (Engine.step_select (Engine.step_drop
        ⟨[("users", [⟨"ID", "int"⟩]), ("posts", [⟨"ID", "int"⟩])], [],
          [("select:users:ID=7", [[("ID", Value.vInt 7)]])]⟩ "posts" true)
      "users" (some ("ID", "7"))).1 = some [[("ID", Value.vInt 7)]] :=
  ⟨drop_create_preserve_cache.2.2.1
    ⟨[("users", [⟨"ID", "int"⟩]), ("posts", [⟨"ID", "int"⟩])], [],
      [("select:users:all", [[("ID", Value.vInt 7)]])]⟩
    "posts" true "users" [[("ID", Value.vInt 7)]] [⟨"ID", "int"⟩]
    (by decide) (by decide),
   drop_create_preserve_cache.2.2.2
    ⟨[("users", [⟨"ID", "int"⟩]), ("posts", [⟨"ID", "int"⟩])], [],
      [("select:users:ID=7", [[("ID", Value.vInt 7)]])]⟩
    "posts" true "users" "ID" "7" "int" (Value.vInt 7)
    [[("ID", Value.vInt 7)]] [⟨"ID", "int"⟩]
    (by decide) (by decide) (by decide) (by decide)⟩

end PrimitiveDb
